import Mathlib

/-!
# MAL command-line client: AniList update and selection commands

A shallow embedding of `anilist_app.go`: the status auto-update policy
(`alStatusAutoUpdate`), the three update commands (`alSetEntryEpisodes`,
`alSetEntryStatus`, `alSetEntryScore`) and the deterministic phase of
`alSelectEntry`.

Go `int` values are modelled as `Int`; the only arithmetic the modelled code
performs on them is `entry.Progress++`, which wraps at 64 bits (`wrapInt`).
Go strings are modelled as `String` (sequences of runes; valid UTF-8).
The external collaborators (remote push, cache persist, the loaded cache) are
explicit parameters of the commands.
-/

namespace MAL

/-! ## Data model -/

/-- Modelled from the spec: `anilist.MediaListStatus` is declared outside
`anilist_app.go`; the spec (section 3) gives the closed set of values, `All` being
the "no filter" sentinel and `Current` the "Watching" status. -/
inductive MediaListStatus where
  | All
  | Current
  | Planning
  | Completed
  | Dropped
  | Paused
  | Repeating
  deriving DecidableEq, Repr

/-- Modelled from the spec: the configuration value `StatusAutoUpdateMode` is
declared outside `anilist_app.go`; the spec (section 4.2) gives its three
modes. -/
inductive StatusAutoUpdateMode where
  | Off
  | Normal
  | AfterThreshold
  deriving DecidableEq, Repr

/-- The `title` object of the GraphQL query `queryUserAnimeList`. -/
structure MediaTitle where
  Romaji : String
  English : String
  Native : String
  UserPreferred : String
  deriving DecidableEq, Repr

/-- Modelled from the spec: `anilist.MediaListEntry` is declared outside
`anilist_app.go`. The fields are the ones `anilist_app.go` reads or writes
(`ListId`, `Id`, `IdMal`, `Title`, `Status`, `Score`, `Progress`, `UpdatedAt`,
`Episodes`), as fetched by `queryUserAnimeList`. -/
structure MediaListEntry where
  ListId : Int
  Id : Int
  IdMal : Int
  Title : MediaTitle
  Status : MediaListStatus
  Score : Int
  Progress : Int
  UpdatedAt : Int
  Episodes : Int
  deriving DecidableEq, Repr

/-- Modelled from the spec: `Config` is declared outside `anilist_app.go`;
the two fields used by the modelled functions. -/
structure Config where
  StatusAutoUpdateMode : StatusAutoUpdateMode
  ALSelectedID : Int
  deriving DecidableEq, Repr

/-- The cached list (`al`): the entries and the access token. -/
structure AniList where
  List : List MediaListEntry
  Token : String
  deriving DecidableEq, Repr

/-! ## Machine integers -/

/-- Largest Go `int` (64-bit platforms). -/
def maxInt : Int := 9223372036854775807

/-- Smallest Go `int` (64-bit platforms). -/
def minInt : Int := -9223372036854775808

/-- Two's-complement wrap-around of a 64-bit signed result. -/
def wrapInt (x : Int) : Int :=
  (x + 9223372036854775808) % 18446744073709551616 - 9223372036854775808

/-! ## Status auto-update policy -/

/-- `alStatusAutoUpdate(cfg, entry)`: the entry after the call. -/
def alStatusAutoUpdate (cfg : Config) (entry : MediaListEntry) : MediaListEntry :=
  if cfg.StatusAutoUpdateMode = .Off ∨ entry.Episodes = 0 then
    entry
  else if (cfg.StatusAutoUpdateMode = .Normal ∧ entry.Progress ≥ entry.Episodes) ∨
      (cfg.StatusAutoUpdateMode = .AfterThreshold ∧ entry.Progress > entry.Episodes) then
    { entry with Status := .Completed, Progress := entry.Episodes }
  else if entry.Status = .Completed ∧ entry.Progress < entry.Episodes then
    { entry with Status := .Current }
  else
    entry

/-! ## Go standard library functions used by the commands -/

/-- Go `strings.ToLower`: every rune of `s` is mapped through `unicode.ToLower`,
which is the parameter `lower`. -/
def strings.ToLower (lower : Char → Char) (s : String) : String :=
  ⟨s.data.map lower⟩

/-- Rune-level search behind `strings.Contains`: some suffix of `s` starts
with `substr`. -/
def strings.containsRunes : List Char → List Char → Bool
  | [], substr => substr.isEmpty
  | c :: s, substr => substr.isPrefixOf (c :: s) || strings.containsRunes s substr

/-- Go `strings.Contains(s, substr)`. -/
def strings.Contains (s substr : String) : Bool :=
  strings.containsRunes s.data substr.data

/-- Go `strings.Join(elems, sep)`. -/
def strings.Join : List String → String → String
  | [], _ => ""
  | [a], _ => a
  | a :: b :: rest, sep => a ++ sep ++ strings.Join (b :: rest) sep

/-- The value of an ASCII decimal digit (`ch -= '0'; if ch > 9 ...`). -/
def strconv.digit (c : Char) : Option Nat :=
  if 48 ≤ c.toNat ∧ c.toNat ≤ 57 then some (c.toNat - 48) else none

/-- The digit loop of `strconv.Atoi`: `n = n*10 + int(ch)`. -/
def strconv.digits : List Char → Nat → Option Nat
  | [], n => some n
  | c :: cs, n =>
    match strconv.digit c with
    | none => none
    | some d => strconv.digits cs (n * 10 + d)

/-- Go `strconv.Atoi(s)`: an optional sign followed by at least one decimal
digit, the value inside the range of `int`; `none` stands for a non-nil
`err`. -/
def strconv.Atoi (s : String) : Option Int :=
  match s.data with
  | [] => none
  | c :: cs =>
    let neg : Bool := c = '-'
    let ds : List Char := if c = '-' ∨ c = '+' then cs else c :: cs
    if ds = [] then none
    else
      match strconv.digits ds 0 with
      | none => none
      | some n =>
        let v : Int := if neg then -(n : Int) else (n : Int)
        if v < minInt ∨ maxInt < v then none else some v

/-- The call `ctx.Args().First()`: the first argument, `""` when there is none. -/
def First (args : List String) : String := args.headD ""

/-! ## Collaborators and explicit state -/

/-- Modelled from the spec: the outcome of `anilist.SaveMediaListEntryWaitAnimation`,
which is outside `anilist_app.go`. Section 4.4: the full entry state is pushed;
the push either fails (`TransportError`) or the service acknowledges the pushed
fields together with its updated timestamp. -/
inductive PushResult where
  | failed (err : String)
  | acknowledged (updatedAt : Int)
  deriving DecidableEq, Repr

/-- The functions called by the commands that are outside `anilist_app.go`. -/
structure Collaborators where
  /-- The remote push `anilist.SaveMediaListEntryWaitAnimation(entry, al.Token)`. -/
  SaveMediaListEntryWaitAnimation : MediaListEntry → String → PushResult
  /-- The cache persist `saveAniListAnimeLists(al)`: `none` is a nil error. -/
  saveAniListAnimeLists : AniList → Option String
  /-- The status parser `anilist.ParseStatus`. -/
  ParseStatus : String → MediaListStatus

/-- The state outside the process: the persisted cache snapshot and the entries
that were pushed to the remote service (latest first). -/
structure World where
  disk : AniList
  sent : List MediaListEntry
  deriving DecidableEq, Repr

/-- Modelled from the spec: what a successful `loadAniListFull(ctx)` returns
(the function is outside `anilist_app.go`): the cached list `al`, the pointer
`entry` to the selected element of `al.List` (the elements before and after it
are kept apart), and the configuration. -/
structure Loaded where
  before : List MediaListEntry
  entry : MediaListEntry
  after : List MediaListEntry
  Token : String
  cfg : Config
  deriving DecidableEq, Repr

/-- The list `al` once the selected element holds `entry`. -/
def Loaded.al (ld : Loaded) (entry : MediaListEntry) : AniList :=
  { List := ld.before ++ entry :: ld.after, Token := ld.Token }

/-- The common tail of the three update commands: push the entry, return on
error; persist the cache, return on error. Modelled from the spec: on an
acknowledged push the timestamp is written into the in-memory entry, and a
successful persist overwrites the snapshot with the in-memory list while a
failed one leaves the old snapshot (sections 4.1 and 4.4). -/
def pushAndPersist (env : Collaborators) (ld : Loaded) (entry : MediaListEntry)
    (w : World) : Option String × World :=
  let w1 : World := { w with sent := entry :: w.sent }
  match env.SaveMediaListEntryWaitAnimation entry ld.Token with
  | .failed err => (some err, w1)
  | .acknowledged updatedAt =>
    let al := ld.al { entry with UpdatedAt := updatedAt }
    match env.saveAniListAnimeLists al with
    | some err => (some err, w1)
    | none => (none, { w1 with disk := al })

/-! ## Update commands -/

/-- The command `alSetEntryEpisodes(ctx)`: the returned error (`none` is nil) and
the state it leaves. `loaded` is the result of `loadAniListFull(ctx)`. -/
def alSetEntryEpisodes (env : Collaborators) (loaded : Except String Loaded)
    (args : List String) (w : World) : Option String × World :=
  match loaded with
  | .error err => (some err, w)
  | .ok ld =>
    if First args ≠ "" then
      match strconv.Atoi (First args) with
      | none => (some "n must be a non-negative integer", w)
      | some n =>
        if n < 0 then (some "n can't be lower than 0", w)
        else
          pushAndPersist env ld (alStatusAutoUpdate ld.cfg { ld.entry with Progress := n }) w
    else
      pushAndPersist env ld
        (alStatusAutoUpdate ld.cfg { ld.entry with Progress := wrapInt (ld.entry.Progress + 1) }) w

/-- The error text of `alSetEntryStatus`. -/
def invalidStatus : String :=
  "invalid status; possible values: watching|planning|completed|dropped|paused|repeating"

/-- The command `alSetEntryStatus(ctx)`. -/
def alSetEntryStatus (env : Collaborators) (loaded : Except String Loaded)
    (args : List String) (w : World) : Option String × World :=
  match loaded with
  | .error err => (some err, w)
  | .ok ld =>
    let status := env.ParseStatus (First args)
    if status = .All then (some invalidStatus, w)
    else pushAndPersist env ld { ld.entry with Status := status } w

/-- The error text of `alSetEntryScore`. -/
def invalidScore : String := "invalid score; valid range: <0;10>"

/-- The command `alSetEntryScore(ctx)`. -/
def alSetEntryScore (env : Collaborators) (loaded : Except String Loaded)
    (args : List String) (w : World) : Option String × World :=
  match loaded with
  | .error err => (some err, w)
  | .ok ld =>
    match strconv.Atoi (First args) with
    | none => (some invalidScore, w)
    | some score =>
      if score < 0 ∨ score > 10 then (some invalidScore, w)
      else pushAndPersist env ld { ld.entry with Score := score } w

/-! ## Selection -/

/-- The string `title` built in the loop of `alSelectEntry`. -/
def searchTitle (entry : MediaListEntry) : String :=
  entry.Title.Romaji ++ " " ++ entry.Title.English ++ " " ++ entry.Title.Native

/-- The match test of `alSelectEntry`:
`strings.Contains(strings.ToLower(title), searchTerm)`. -/
def titleMatches (lower : Char → Char) (searchTerm : String) (entry : MediaListEntry) : Bool :=
  strings.Contains (strings.ToLower lower (searchTitle entry)) searchTerm

/-- The loop of `alSelectEntry` over the remaining entries; the second argument
is `matchedEntry` (the element it points to, `none` for nil). A second match
resets it and breaks. -/
def matchLoop (lower : Char → Char) (searchTerm : String) :
    List MediaListEntry → Option MediaListEntry → Option MediaListEntry
  | [], matchedEntry => matchedEntry
  | entry :: rest, matchedEntry =>
    if titleMatches lower searchTerm entry then
      match matchedEntry with
      | some _ => none
      | none => matchLoop lower searchTerm rest (some entry)
    else matchLoop lower searchTerm rest matchedEntry

/-- The assignment made by `alSaveSelection(cfg, entry)` before `cfg.Save()`. -/
def alSaveSelection (cfg : Config) (entry : MediaListEntry) : Config :=
  { cfg with ALSelectedID := entry.ListId }

/-- What `alSelectEntry` does: fail with the load error, save a selection, or
hand over to the interactive chooser `alFuzzySelectEntry`. -/
inductive SelectResult where
  | failed (err : String)
  | saved (cfg : Config) (entry : MediaListEntry)
  | fuzzy
  deriving DecidableEq, Repr

/-- The command `alSelectEntry(ctx)`; `loaded` is the result of `loadAniList(ctx)`
and `cfg` the one of `LoadConfig()`. -/
def alSelectEntry (lower : Char → Char) (loaded : Except String AniList) (cfg : Config)
    (args : List String) : SelectResult :=
  match loaded with
  | .error err => .failed err
  | .ok al =>
    let searchTerm := strings.ToLower lower (strings.Join args " ")
    if searchTerm = "" then .fuzzy
    else
      match matchLoop lower searchTerm al.List none with
      | some matchedEntry => .saved (alSaveSelection cfg matchedEntry) matchedEntry
      | none => .fuzzy

/-! ## Specification-level notions -/

/-- The entry invariant of the data model: progress is never negative, the
score lies in 0..10, the status is not the sentinel `All`. -/
def entryInvariant (e : MediaListEntry) : Prop :=
  0 ≤ e.Progress ∧ 0 ≤ e.Score ∧ e.Score ≤ 10 ∧ e.Status ≠ .All

instance (e : MediaListEntry) : Decidable (entryInvariant e) :=
  inferInstanceAs (Decidable (0 ≤ e.Progress ∧ 0 ≤ e.Score ∧ e.Score ≤ 10 ∧ e.Status ≠ .All))

/-- The match test as the specification words it: the case-folded search text
is a substring of the case-folded concatenation of the title variants
native + romanized + English. -/
def specTitleMatches (lower : Char → Char) (searchText : String) (entry : MediaListEntry) : Bool :=
  strings.Contains
    (strings.ToLower lower (entry.Title.Native ++ entry.Title.Romaji ++ entry.Title.English))
    (strings.ToLower lower searchText)

/-! ## Sample data -/

/-- An entry with the given list id, titles, status, progress and total. -/
def sampleEntry (listId : Int) (romaji english native : String) (status : MediaListStatus)
    (progress episodes : Int) : MediaListEntry :=
  { ListId := listId, Id := 100 + listId, IdMal := 200 + listId,
    Title := { Romaji := romaji, English := english, Native := native, UserPreferred := romaji },
    Status := status, Score := 0, Progress := progress, UpdatedAt := 0, Episodes := episodes }

/-- The first season. -/
def aot1 : MediaListEntry :=
  sampleEntry 1 "Shingeki no Kyojin" "Attack on Titan" "進撃の巨人" .Completed 25 25

/-- The final season. -/
def aot2 : MediaListEntry :=
  sampleEntry 2 "Shingeki no Kyojin: The Final Season" "Attack on Titan: Final Season"
    "進撃の巨人 The Final Season" .Current 11 12

/-- A cache with the two entries. -/
def aotList : AniList := { List := [aot1, aot2], Token := "token" }

/-- A configuration in `Normal` mode. -/
def normalCfg : Config := { StatusAutoUpdateMode := .Normal, ALSelectedID := 2 }

/-- Collaborators whose push is acknowledged at time 1700000000 and whose
persist succeeds. -/
def okEnv : Collaborators :=
  { SaveMediaListEntryWaitAnimation := fun _ _ => .acknowledged 1700000000,
    saveAniListAnimeLists := fun _ => none,
    ParseStatus := fun s => if s = "completed" then .Completed else .All }

/-- Collaborators whose push fails. -/
def downEnv : Collaborators :=
  { okEnv with SaveMediaListEntryWaitAnimation := fun _ _ => .failed "transport error" }

/-- The loaded state with the final season selected. -/
def aotLoaded : Loaded :=
  { before := [aot1], entry := aot2, after := [], Token := "token", cfg := normalCfg }

/-- The loaded state with an entry of unknown total whose progress is the
largest `int`. -/
def maxLoaded : Loaded :=
  { before := [], entry := sampleEntry 3 "One Piece" "One Piece" "ワンピース" .Current maxInt 0,
    after := [], Token := "token", cfg := normalCfg }

/-- The state before a command on `maxLoaded`: the snapshot holds its entry. -/
def maxWorld : World := { disk := maxLoaded.al maxLoaded.entry, sent := [] }

/-- The state before a command: the snapshot holds the two entries. -/
def aotWorld : World := { disk := aotList, sent := [] }

/-! ## The status auto-update policy -/

/-- C1: in `Normal` mode, an entry with a known total (`Episodes > 0`) whose
progress has reached or passed the total comes out `Completed` with its progress
equal to the total, whatever its status was. -/
theorem alStatusAutoUpdate_normal_completes (cfg : Config) (entry : MediaListEntry)
    (hmode : cfg.StatusAutoUpdateMode = .Normal) (htotal : 0 < entry.Episodes)
    (hprog : entry.Episodes ≤ entry.Progress) :
    (alStatusAutoUpdate cfg entry).Status = .Completed ∧
      (alStatusAutoUpdate cfg entry).Progress = entry.Episodes := by
  have hne : entry.Episodes ≠ 0 := by omega
  simp [alStatusAutoUpdate, hmode, hne, hprog]

/-- Witness of C1: progress 12 of 12 in `Normal` mode, status `Current` before. -/
theorem alStatusAutoUpdate_normal_completes_witness :
    (alStatusAutoUpdate normalCfg { aot2 with Progress := 12 }).Status = .Completed ∧
      (alStatusAutoUpdate normalCfg { aot2 with Progress := 12 }).Progress = 12 :=
  alStatusAutoUpdate_normal_completes normalCfg { aot2 with Progress := 12 }
    (by decide) (by decide) (by decide)

/-- C2: in `AfterThreshold` mode, for an entry with a known total, the policy
completes and clamps exactly when the progress strictly exceeds the total: the
progress is changed if and only if `Progress > Episodes`, and then the entry is
`Completed` with progress equal to the total; with `Progress = Episodes` the
entry is returned unchanged; with `Progress < Episodes` the progress is kept and
the result is not `Completed`. -/
theorem alStatusAutoUpdate_afterThreshold_strict (cfg : Config) (entry : MediaListEntry)
    (hmode : cfg.StatusAutoUpdateMode = .AfterThreshold) (htotal : 0 < entry.Episodes) :
    ((alStatusAutoUpdate cfg entry).Progress ≠ entry.Progress ↔
        entry.Episodes < entry.Progress) ∧
      (entry.Episodes < entry.Progress →
        (alStatusAutoUpdate cfg entry).Status = .Completed ∧
          (alStatusAutoUpdate cfg entry).Progress = entry.Episodes) ∧
      (entry.Progress = entry.Episodes → alStatusAutoUpdate cfg entry = entry) ∧
      (entry.Progress < entry.Episodes →
        (alStatusAutoUpdate cfg entry).Status ≠ .Completed ∧
          (alStatusAutoUpdate cfg entry).Progress = entry.Progress) := by
  have hne : entry.Episodes ≠ 0 := by omega
  have hrun : alStatusAutoUpdate cfg entry =
      if entry.Episodes < entry.Progress then
        { entry with Status := .Completed, Progress := entry.Episodes }
      else if entry.Status = .Completed ∧ entry.Progress < entry.Episodes then
        { entry with Status := .Current }
      else entry := by
    simp [alStatusAutoUpdate, hmode, hne]
  rw [hrun]
  refine ⟨?_, ?_, ?_, ?_⟩
  · by_cases hgt : entry.Episodes < entry.Progress
    · simp only [hgt, if_true, iff_true]
      exact fun hc => absurd hc (by omega)
    · simp only [hgt, if_false, iff_false, not_not]
      split_ifs <;> rfl
  · intro hgt
    simp [hgt]
  · intro heq
    have h1 : ¬ entry.Episodes < entry.Progress := by omega
    have h2 : ¬ entry.Progress < entry.Episodes := by omega
    simp [h1, h2]
  · intro hlt
    have h1 : ¬ entry.Episodes < entry.Progress := by omega
    simp only [h1, if_false]
    by_cases hc : entry.Status = .Completed
    · simp [hc, hlt]
    · simp [hc]

/-- Witness of C2: progress 12 of 12 in `AfterThreshold` mode. -/
theorem alStatusAutoUpdate_afterThreshold_strict_witness :
    alStatusAutoUpdate { normalCfg with StatusAutoUpdateMode := .AfterThreshold }
        { aot2 with Progress := 12 } = { aot2 with Progress := 12 } :=
  (alStatusAutoUpdate_afterThreshold_strict
    { normalCfg with StatusAutoUpdateMode := .AfterThreshold } { aot2 with Progress := 12 }
    (by decide) (by decide)).2.2.1 (by decide)

/-- C3: when the total is unknown (`Episodes = 0`), in every mode and for every
progress, and for every entry when the mode is `Off`, the policy returns the
entry unchanged in every field. -/
theorem alStatusAutoUpdate_noop (cfg : Config) (entry : MediaListEntry)
    (h : entry.Episodes = 0 ∨ cfg.StatusAutoUpdateMode = .Off) :
    alStatusAutoUpdate cfg entry = entry := by
  rcases h with h | h <;> simp [alStatusAutoUpdate, h]

/-- Witness of C3: a `Completed` entry with progress 30 and unknown total, in
`Normal` mode. -/
theorem alStatusAutoUpdate_noop_witness :
    alStatusAutoUpdate normalCfg { aot1 with Progress := 30, Episodes := 0 } =
      { aot1 with Progress := 30, Episodes := 0 } :=
  alStatusAutoUpdate_noop normalCfg { aot1 with Progress := 30, Episodes := 0 }
    (Or.inl (by decide))

/-- C4: in every mode other than `Off`, a `Completed` entry whose progress is
below the total (and not negative) comes out with status `Current`, its progress
and all other fields unchanged. -/
theorem alStatusAutoUpdate_reverts_completed (cfg : Config) (entry : MediaListEntry)
    (hmode : cfg.StatusAutoUpdateMode ≠ .Off) (hstatus : entry.Status = .Completed)
    (hnonneg : 0 ≤ entry.Progress) (hlt : entry.Progress < entry.Episodes) :
    (alStatusAutoUpdate cfg entry).Status = .Current ∧
      (alStatusAutoUpdate cfg entry).Progress = entry.Progress ∧
      alStatusAutoUpdate cfg entry = { entry with Status := .Current } := by
  have hne : entry.Episodes ≠ 0 := by omega
  have h1 : ¬ entry.Episodes ≤ entry.Progress := by omega
  have h2 : ¬ entry.Episodes < entry.Progress := by omega
  simp [alStatusAutoUpdate, hmode, hne, h1, h2, hstatus, hlt]

/-- Witness of C4: the completed first season set back to 20 of 25, in
`AfterThreshold` mode. -/
theorem alStatusAutoUpdate_reverts_completed_witness :
    (alStatusAutoUpdate { normalCfg with StatusAutoUpdateMode := .AfterThreshold }
        { aot1 with Progress := 20 }).Status = .Current ∧
      (alStatusAutoUpdate { normalCfg with StatusAutoUpdateMode := .AfterThreshold }
        { aot1 with Progress := 20 }).Progress = 20 ∧
      alStatusAutoUpdate { normalCfg with StatusAutoUpdateMode := .AfterThreshold }
        { aot1 with Progress := 20 } = { aot1 with Progress := 20, Status := .Current } :=
  alStatusAutoUpdate_reverts_completed
    { normalCfg with StatusAutoUpdateMode := .AfterThreshold } { aot1 with Progress := 20 }
    (by decide) (by decide) (by decide) (by decide)

/-! ## Selection: the substring test and the uniqueness loop -/

/-- The Boolean test `isPrefixOf` holds exactly when the list starts with the
given runes. -/
theorem isPrefixOf_iff_append (p l : List Char) :
    p.isPrefixOf l = true ↔ ∃ suf, l = p ++ suf := by
  induction p generalizing l with
  | nil => simp
  | cons a p ih =>
    cases l with
    | nil => simp
    | cons b l =>
      simp only [List.isPrefixOf, Bool.and_eq_true, beq_iff_eq, ih, List.cons_append,
        List.cons.injEq]
      constructor
      · rintro ⟨rfl, suf, rfl⟩
        exact ⟨suf, rfl, rfl⟩
      · rintro ⟨suf, rfl, rfl⟩
        exact ⟨rfl, suf, rfl⟩

/-- The rune search succeeds exactly when the sought runes occur contiguously. -/
theorem containsRunes_iff (s substr : List Char) :
    strings.containsRunes s substr = true ↔ ∃ pre suf, s = pre ++ substr ++ suf := by
  induction s with
  | nil =>
    simp only [strings.containsRunes, List.isEmpty_iff]
    constructor
    · rintro rfl
      exact ⟨[], [], rfl⟩
    · rintro ⟨pre, suf, h⟩
      have h1 := congrArg List.length h
      simp only [List.length_nil, List.length_append] at h1
      exact List.length_eq_zero.mp (by omega)
  | cons c s ih =>
    simp only [strings.containsRunes, Bool.or_eq_true, isPrefixOf_iff_append, ih]
    constructor
    · rintro (⟨suf, h⟩ | ⟨pre, suf, h⟩)
      · exact ⟨[], suf, by simpa using h⟩
      · exact ⟨c :: pre, suf, by simp [h]⟩
    · rintro ⟨pre, suf, h⟩
      cases pre with
      | nil => exact Or.inl ⟨suf, by simpa using h⟩
      | cons d pre =>
        simp only [List.cons_append, List.cons.injEq] at h
        exact Or.inr ⟨pre, suf, h.2⟩

/-- Lower-casing keeps a string non-empty. -/
theorem ToLower_ne_empty (lower : Char → Char) (s : String) (h : s ≠ "") :
    strings.ToLower lower s ≠ "" := by
  intro hc
  apply h
  have h1 : (strings.ToLower lower s).data = [] := by rw [hc]
  simp only [strings.ToLower, List.map_eq_nil_iff] at h1
  exact String.ext h1

/-- The loop entered with a match already recorded keeps it exactly when no
further entry matches. -/
theorem matchLoop_some (lower : Char → Char) (searchTerm : String)
    (l : List MediaListEntry) (x : MediaListEntry) :
    matchLoop lower searchTerm l (some x) =
      if l.filter (titleMatches lower searchTerm) = [] then some x else none := by
  induction l with
  | nil => simp [matchLoop]
  | cons e l ih =>
    by_cases hm : titleMatches lower searchTerm e = true
    · simp [matchLoop, hm]
    · simp [matchLoop, hm, ih]

/-- The loop entered without a match returns the single matching entry, and nil
when no entry or more than one entry matches. -/
theorem matchLoop_none (lower : Char → Char) (searchTerm : String)
    (l : List MediaListEntry) :
    matchLoop lower searchTerm l none =
      match l.filter (titleMatches lower searchTerm) with
      | [e] => some e
      | _ => none := by
  induction l with
  | nil => simp [matchLoop]
  | cons e l ih =>
    by_cases hm : titleMatches lower searchTerm e = true
    · simp only [matchLoop, hm, if_true, List.filter_cons_of_pos, matchLoop_some]
      cases hf : l.filter (titleMatches lower searchTerm) <;> simp
    · have hf : (e :: l).filter (titleMatches lower searchTerm) =
          l.filter (titleMatches lower searchTerm) := List.filter_cons_of_neg hm
      rw [hf, ← ih]
      simp [matchLoop, hm]

/-- C5: for every cached list and every non-empty search text (the arguments
joined by single spaces), `alSelectEntry` saves a selection exactly when one
single entry of the list matches, and that entry is the one selected (its
`ListId` becomes `ALSelectedID`); with no match or with several matches it hands
over to the interactive chooser. -/
theorem alSelectEntry_selects_iff_unique (lower : Char → Char) (al : AniList) (cfg : Config)
    (args : List String) (htext : strings.Join args " " ≠ "") :
    (∀ e, alSelectEntry lower (.ok al) cfg args =
          .saved { cfg with ALSelectedID := e.ListId } e ↔
        al.List.filter (titleMatches lower (strings.ToLower lower (strings.Join args " "))) =
          [e]) ∧
      (alSelectEntry lower (.ok al) cfg args = .fuzzy ↔
        (al.List.filter
          (titleMatches lower (strings.ToLower lower (strings.Join args " ")))).length ≠ 1) := by
  have hne := ToLower_ne_empty lower _ htext
  simp only [alSelectEntry, hne, if_false, matchLoop_none, alSaveSelection]
  constructor
  · intro e
    cases hf : al.List.filter
        (titleMatches lower (strings.ToLower lower (strings.Join args " "))) with
    | nil => simp
    | cons a t =>
      cases t with
      | nil =>
        simp only [SelectResult.saved.injEq, List.cons.injEq, and_true]
        constructor
        · exact fun h => h.2
        · rintro rfl
          exact ⟨rfl, rfl⟩
      | cons b t => simp
  · cases hf : al.List.filter
        (titleMatches lower (strings.ToLower lower (strings.Join args " "))) with
    | nil => simp
    | cons a t =>
      cases t with
      | nil => simp
      | cons b t => simp

/-- Witness of C5: with "Attack on Titan" and "Attack on Titan: Final Season" in
the cache, "final season" selects the second entry and "attack on titan" is
ambiguous and goes to the interactive chooser. -/
theorem alSelectEntry_selects_iff_unique_witness :
    strings.Join ["final", "season"] " " ≠ "" ∧
      alSelectEntry Char.toLower (.ok aotList) normalCfg ["final", "season"] =
        .saved { normalCfg with ALSelectedID := 2 } aot2 ∧
      alSelectEntry Char.toLower (.ok aotList) normalCfg ["attack", "on", "titan"] = .fuzzy :=
  ⟨by decide,
    ((alSelectEntry_selects_iff_unique Char.toLower aotList normalCfg ["final", "season"]
      (by decide)).1 aot2).2 (by decide),
    (alSelectEntry_selects_iff_unique Char.toLower aotList normalCfg ["attack", "on", "titan"]
      (by decide)).2.2 (by decide)⟩

/-- Counterexample to C10: for the entry with romanized title "Shingeki no
Kyojin", English title "Attack on Titan" and native title "進撃の巨人", the
non-empty search text "titan 進撃" passes the match test of `alSelectEntry`
(the title string is romanized, English, native joined by spaces) but is not a
substring of the case-folded concatenation native + romanized + English. -/
theorem titleMatches_differs_from_spec :
    ("titan 進撃" : String) ≠ "" ∧
      titleMatches Char.toLower (strings.ToLower Char.toLower "titan 進撃") aot1 = true ∧
      specTitleMatches Char.toLower "titan 進撃" aot1 = false := by
  decide

/-- C10 (amended): the match test of `alSelectEntry` holds exactly when the
lower-cased search text occurs contiguously in the lower-cased title string
romanized + " " + English + " " + native, that is in the lower-cased romanized
title, a lower-cased space, the lower-cased English title, a lower-cased space,
the lower-cased native title, in this order. -/
theorem titleMatches_iff_substring (lower : Char → Char) (searchText : String)
    (entry : MediaListEntry) :
    titleMatches lower (strings.ToLower lower searchText) entry = true ↔
      ∃ pre suf : List Char,
        entry.Title.Romaji.data.map lower ++ lower ' ' ::
            (entry.Title.English.data.map lower ++ lower ' ' ::
              entry.Title.Native.data.map lower) =
          pre ++ searchText.data.map lower ++ suf := by
  simp only [titleMatches, strings.Contains, containsRunes_iff, strings.ToLower, searchTitle,
    String.data_append]
  have hsp : (" " : String).data = [' '] := rfl
  simp [hsp]

/-! ## Update commands: push, persist and validation -/

/-- The common tail always records the push of the entry it is given. -/
theorem pushAndPersist_sent (env : Collaborators) (ld : Loaded) (entry : MediaListEntry)
    (w : World) : (pushAndPersist env ld entry w).2.sent = entry :: w.sent := by
  unfold pushAndPersist
  cases env.SaveMediaListEntryWaitAnimation entry ld.Token with
  | failed err => rfl
  | acknowledged t =>
    simp only
    cases env.saveAniListAnimeLists (ld.al { entry with UpdatedAt := t }) <;> rfl

/-- When the push fails the common tail returns the push error and leaves the
snapshot alone. -/
theorem pushAndPersist_failed (env : Collaborators) (ld : Loaded) (entry : MediaListEntry)
    (w : World) (err : String)
    (hfail : env.SaveMediaListEntryWaitAnimation entry ld.Token = .failed err) :
    pushAndPersist env ld entry w = (some err, { w with sent := entry :: w.sent }) := by
  simp [pushAndPersist, hfail]

/-- When push and persist succeed the common tail returns nil and the snapshot
is the list holding the entry with the acknowledged timestamp. -/
theorem pushAndPersist_ok (env : Collaborators) (ld : Loaded) (entry : MediaListEntry)
    (w : World) (t : Int)
    (hpush : env.SaveMediaListEntryWaitAnimation entry ld.Token = .acknowledged t)
    (hsave : env.saveAniListAnimeLists (ld.al { entry with UpdatedAt := t }) = none) :
    pushAndPersist env ld entry w =
      (none, { disk := ld.al { entry with UpdatedAt := t }, sent := entry :: w.sent }) := by
  simp [pushAndPersist, hpush, hsave]

/-- A command that stopped before the push cannot have extended the push log. -/
theorem sent_ne_cons (w : World) (e : MediaListEntry) : w.sent ≠ e :: w.sent := by
  intro h
  have h1 := congrArg List.length h
  simp at h1

/-- The score command either stops with an error in the unchanged state or runs
the common tail on the entry with the new score. -/
theorem alSetEntryScore_cases (env : Collaborators) (ld : Loaded) (args : List String)
    (w : World) :
    (∃ msg, alSetEntryScore env (.ok ld) args w = (some msg, w)) ∨
      ∃ s, 0 ≤ s ∧ s ≤ 10 ∧
        alSetEntryScore env (.ok ld) args w =
          pushAndPersist env ld { ld.entry with Score := s } w := by
  unfold alSetEntryScore
  cases strconv.Atoi (First args) with
  | none => exact Or.inl ⟨_, rfl⟩
  | some s =>
    by_cases hs : s < 0 ∨ s > 10
    · exact Or.inl ⟨invalidScore, by simp [hs]⟩
    · refine Or.inr ⟨s, by omega, by omega, by simp [hs]⟩

/-- The status command either stops with an error in the unchanged state or
runs the common tail on the entry with a status other than `All`. -/
theorem alSetEntryStatus_cases (env : Collaborators) (ld : Loaded) (args : List String)
    (w : World) :
    (∃ msg, alSetEntryStatus env (.ok ld) args w = (some msg, w)) ∨
      ∃ st, st ≠ MediaListStatus.All ∧
        alSetEntryStatus env (.ok ld) args w =
          pushAndPersist env ld { ld.entry with Status := st } w := by
  unfold alSetEntryStatus
  by_cases hs : env.ParseStatus (First args) = .All
  · exact Or.inl ⟨invalidStatus, by simp [hs]⟩
  · exact Or.inr ⟨_, hs, by simp [hs]⟩

/-- The episodes command either stops with an error in the unchanged state or
runs the common tail on the policy result for a given non-negative number or for
the incremented progress. -/
theorem alSetEntryEpisodes_cases (env : Collaborators) (ld : Loaded) (args : List String)
    (w : World) :
    (∃ msg, alSetEntryEpisodes env (.ok ld) args w = (some msg, w)) ∨
      (∃ n, 0 ≤ n ∧
        alSetEntryEpisodes env (.ok ld) args w =
          pushAndPersist env ld (alStatusAutoUpdate ld.cfg { ld.entry with Progress := n }) w) ∨
      (First args = "" ∧
        alSetEntryEpisodes env (.ok ld) args w =
          pushAndPersist env ld
            (alStatusAutoUpdate ld.cfg
              { ld.entry with Progress := wrapInt (ld.entry.Progress + 1) }) w) := by
  unfold alSetEntryEpisodes
  by_cases harg : First args = ""
  · exact Or.inr (Or.inr ⟨harg, by simp [harg]⟩)
  · cases hn : strconv.Atoi (First args) with
    | none => exact Or.inl ⟨"n must be a non-negative integer", by simp [harg]⟩
    | some n =>
      by_cases hneg : n < 0
      · exact Or.inl ⟨"n can't be lower than 0", by simp [harg, hneg]⟩
      · exact Or.inr (Or.inl ⟨n, by omega, by simp [harg, hneg]⟩)

/-- C6: the score command accepts its argument exactly when it parses as an
integer `s` with `0 ≤ s ≤ 10`. Then the entry pushed is the selected entry with
`Score` set to `s` (status, progress and all other fields as before). For an
integer outside the range, and for an argument that is not an integer, the
command returns the validation error and the state is the one before: nothing
has been pushed or persisted. -/
theorem alSetEntryScore_validates (env : Collaborators) (ld : Loaded) (args : List String)
    (w : World) :
    (∀ s, strconv.Atoi (First args) = some s → 0 ≤ s → s ≤ 10 →
        alSetEntryScore env (.ok ld) args w =
            pushAndPersist env ld { ld.entry with Score := s } w ∧
          (alSetEntryScore env (.ok ld) args w).2.sent =
            { ld.entry with Score := s } :: w.sent) ∧
      (∀ s, strconv.Atoi (First args) = some s → s < 0 ∨ 10 < s →
        alSetEntryScore env (.ok ld) args w = (some invalidScore, w)) ∧
      (strconv.Atoi (First args) = none →
        alSetEntryScore env (.ok ld) args w = (some invalidScore, w)) := by
  refine ⟨?_, ?_, ?_⟩
  · intro s hs h0 h10
    have hin : ¬ (s < 0 ∨ s > 10) := by omega
    have hrun : alSetEntryScore env (.ok ld) args w =
        pushAndPersist env ld { ld.entry with Score := s } w := by
      simp [alSetEntryScore, hs, hin]
    exact ⟨hrun, by rw [hrun, pushAndPersist_sent]⟩
  · intro s hs hout
    have hout2 : s < 0 ∨ s > 10 := by omega
    simp [alSetEntryScore, hs, hout2]
  · intro hs
    simp [alSetEntryScore, hs]

/-- Witness of C6: the arguments "0" and "10" are accepted and the entry with
that score is pushed; "11", "-1" and "ten" are rejected with the validation
error in the unchanged state. -/
theorem alSetEntryScore_validates_witness :
    (alSetEntryScore okEnv (.ok aotLoaded) ["0"] aotWorld).2.sent = [{ aot2 with Score := 0 }] ∧
      (alSetEntryScore okEnv (.ok aotLoaded) ["10"] aotWorld).2.sent =
        [{ aot2 with Score := 10 }] ∧
      alSetEntryScore okEnv (.ok aotLoaded) ["11"] aotWorld = (some invalidScore, aotWorld) ∧
      alSetEntryScore okEnv (.ok aotLoaded) ["-1"] aotWorld = (some invalidScore, aotWorld) ∧
      alSetEntryScore okEnv (.ok aotLoaded) ["ten"] aotWorld = (some invalidScore, aotWorld) :=
  ⟨((alSetEntryScore_validates okEnv aotLoaded ["0"] aotWorld).1 0
      (by decide) (by decide) (by decide)).2,
    ((alSetEntryScore_validates okEnv aotLoaded ["10"] aotWorld).1 10
      (by decide) (by decide) (by decide)).2,
    (alSetEntryScore_validates okEnv aotLoaded ["11"] aotWorld).2.1 11
      (by decide) (Or.inr (by decide)),
    (alSetEntryScore_validates okEnv aotLoaded ["-1"] aotWorld).2.1 (-1)
      (by decide) (Or.inl (by decide)),
    (alSetEntryScore_validates okEnv aotLoaded ["ten"] aotWorld).2.2 (by decide)⟩

/-- C7: for each of the three update commands, when the push of the entry `e`
it sends fails with `err`, the command returns `err` and the persisted cache
snapshot after the command is the one before it. -/
theorem push_failure_keeps_snapshot (env : Collaborators) (ld : Loaded) (args : List String)
    (w : World) (e : MediaListEntry) (err : String)
    (hfail : env.SaveMediaListEntryWaitAnimation e ld.Token = .failed err) :
    ((alSetEntryScore env (.ok ld) args w).2.sent = e :: w.sent →
        (alSetEntryScore env (.ok ld) args w).1 = some err ∧
          (alSetEntryScore env (.ok ld) args w).2.disk = w.disk) ∧
      ((alSetEntryEpisodes env (.ok ld) args w).2.sent = e :: w.sent →
        (alSetEntryEpisodes env (.ok ld) args w).1 = some err ∧
          (alSetEntryEpisodes env (.ok ld) args w).2.disk = w.disk) ∧
      ((alSetEntryStatus env (.ok ld) args w).2.sent = e :: w.sent →
        (alSetEntryStatus env (.ok ld) args w).1 = some err ∧
          (alSetEntryStatus env (.ok ld) args w).2.disk = w.disk) := by
  have key : ∀ e2 : MediaListEntry,
      (pushAndPersist env ld e2 w).2.sent = e :: w.sent →
        (pushAndPersist env ld e2 w).1 = some err ∧
          (pushAndPersist env ld e2 w).2.disk = w.disk := by
    intro e2 h
    rw [pushAndPersist_sent] at h
    have he : e2 = e := (List.cons.inj h).1
    subst he
    rw [pushAndPersist_failed env ld e2 w err hfail]
    exact ⟨rfl, rfl⟩
  refine ⟨?_, ?_, ?_⟩
  · intro h
    rcases alSetEntryScore_cases env ld args w with ⟨msg, hm⟩ | ⟨s, _, _, hs⟩
    · rw [hm] at h
      exact absurd h (sent_ne_cons w e)
    · rw [hs] at h ⊢
      exact key _ h
  · intro h
    rcases alSetEntryEpisodes_cases env ld args w with ⟨msg, hm⟩ | ⟨n, _, hn⟩ | ⟨_, hinc⟩
    · rw [hm] at h
      exact absurd h (sent_ne_cons w e)
    · rw [hn] at h ⊢
      exact key _ h
    · rw [hinc] at h ⊢
      exact key _ h
  · intro h
    rcases alSetEntryStatus_cases env ld args w with ⟨msg, hm⟩ | ⟨st, _, hs⟩
    · rw [hm] at h
      exact absurd h (sent_ne_cons w e)
    · rw [hs] at h ⊢
      exact key _ h

/-- Witness of C7: with the remote service down, the score update "8" of the
selected entry returns the transport error and the snapshot still holds the two
entries as they were. -/
theorem push_failure_keeps_snapshot_witness :
    (alSetEntryScore downEnv (.ok aotLoaded) ["8"] aotWorld).1 = some "transport error" ∧
      (alSetEntryScore downEnv (.ok aotLoaded) ["8"] aotWorld).2.disk = aotList :=
  (push_failure_keeps_snapshot downEnv aotLoaded ["8"] aotWorld { aot2 with Score := 8 }
    "transport error" (by decide)).1 (by decide)

/-- C8: in `Normal` mode, for an entry with a known total (an `int`, so at most
`maxInt`) whose progress is one below the total, the episodes command called
without a number increments the progress by exactly one and the policy completes
the entry: the entry pushed has `Progress = Episodes` and `Status = Completed`,
and when push and persist succeed the command returns nil and the persisted
snapshot holds that entry (with the acknowledged timestamp) in its place. -/
theorem alSetEntryEpisodes_increment_completes (env : Collaborators) (ld : Loaded)
    (args : List String) (w : World) (hargs : First args = "")
    (hmode : ld.cfg.StatusAutoUpdateMode = .Normal) (htotal : 0 < ld.entry.Episodes)
    (hmax : ld.entry.Episodes ≤ maxInt) (hprog : ld.entry.Progress = ld.entry.Episodes - 1) :
    wrapInt (ld.entry.Progress + 1) = ld.entry.Progress + 1 ∧
      (alSetEntryEpisodes env (.ok ld) args w).2.sent =
        { ld.entry with Progress := ld.entry.Episodes, Status := .Completed } :: w.sent ∧
      ∀ t,
        env.SaveMediaListEntryWaitAnimation
            { ld.entry with Progress := ld.entry.Episodes, Status := .Completed } ld.Token =
          .acknowledged t →
        env.saveAniListAnimeLists
            (ld.al { ld.entry with
              Progress := ld.entry.Episodes, Status := .Completed, UpdatedAt := t }) = none →
        alSetEntryEpisodes env (.ok ld) args w =
          (none,
            { disk := ld.al { ld.entry with
                Progress := ld.entry.Episodes, Status := .Completed, UpdatedAt := t },
              sent := { ld.entry with
                Progress := ld.entry.Episodes, Status := .Completed } :: w.sent }) := by
  have hwrap : wrapInt (ld.entry.Progress + 1) = ld.entry.Episodes := by
    unfold wrapInt
    unfold maxInt at hmax
    omega
  have hne : ld.entry.Episodes ≠ 0 := by omega
  have hpol : alStatusAutoUpdate ld.cfg { ld.entry with Progress := ld.entry.Episodes } =
      { ld.entry with Progress := ld.entry.Episodes, Status := .Completed } := by
    simp [alStatusAutoUpdate, hmode, hne]
  have hrun : alSetEntryEpisodes env (.ok ld) args w =
      pushAndPersist env ld
        { ld.entry with Progress := ld.entry.Episodes, Status := .Completed } w := by
    simp only [alSetEntryEpisodes, hargs, ne_eq, not_true_eq_false, if_false, hwrap, hpol]
  refine ⟨by rw [hwrap]; omega, by rw [hrun, pushAndPersist_sent], ?_⟩
  intro t hpush hsave
  rw [hrun]
  exact pushAndPersist_ok env ld _ w t hpush hsave

/-- Witness of C8: the entry with progress 11 of 12 and status `Current`
(watching); the command without a number pushes and persists progress 12 and
status `Completed`. -/
theorem alSetEntryEpisodes_increment_completes_witness :
    alSetEntryEpisodes okEnv (.ok aotLoaded) [] aotWorld =
      (none,
        { disk :=
            { List := [aot1, { aot2 with
                Progress := 12, Status := .Completed, UpdatedAt := 1700000000 }],
              Token := "token" },
          sent := [{ aot2 with Progress := 12, Status := .Completed }] }) :=
  (alSetEntryEpisodes_increment_completes okEnv aotLoaded [] aotWorld
    (by decide) (by decide) (by decide) (by decide) (by decide)).2.2 1700000000
    (by decide) (by decide)

/-! ## The entry invariant -/

/-- The policy keeps the invariant of an entry whose total is not negative. -/
theorem alStatusAutoUpdate_invariant (cfg : Config) (entry : MediaListEntry)
    (hinv : entryInvariant entry) (htotal : 0 ≤ entry.Episodes) :
    entryInvariant (alStatusAutoUpdate cfg entry) := by
  obtain ⟨hp, hs0, hs10, hst⟩ := hinv
  unfold alStatusAutoUpdate
  split_ifs with h1 h2 h3
  · exact ⟨hp, hs0, hs10, hst⟩
  · exact ⟨htotal, hs0, hs10, by simp⟩
  · exact ⟨hp, hs0, hs10, by simp⟩
  · exact ⟨hp, hs0, hs10, hst⟩

/-- Whatever the common tail leaves on disk is the old snapshot or the loaded
list holding the pushed entry with an acknowledged timestamp. -/
theorem pushAndPersist_disk (env : Collaborators) (ld : Loaded) (entry : MediaListEntry)
    (w : World) :
    (pushAndPersist env ld entry w).2.disk = w.disk ∨
      ∃ t, (pushAndPersist env ld entry w).2.disk = ld.al { entry with UpdatedAt := t } := by
  unfold pushAndPersist
  cases env.SaveMediaListEntryWaitAnimation entry ld.Token with
  | failed err => exact Or.inl rfl
  | acknowledged t =>
    simp only
    cases env.saveAniListAnimeLists (ld.al { entry with UpdatedAt := t }) with
    | none => exact Or.inr ⟨t, rfl⟩
    | some err => exact Or.inl rfl

end MAL
